import Mathlib

/-!
Verification of the deterministic minute-to-word-phrase generator
(`time2word.py`) of the musiquiz collections repository.

The generator maps each minute-of-day to a five-word label: five fixed
word banks, one MD5-seeded deterministic Fisher-Yates permutation per
bank, five per-position 32-bit mixing transforms of the minute index,
and a 1440-entry label table indexed by `hour*60 + minute`.
-/

set_option maxRecDepth 100000

namespace Collections1

/-- The five word banks, one list per label position (`word_banks` in the
source). -/
def word_banks : List (List String) := [
  ["Alpha", "Brave", "Cosmic", "Digital", "Electric", "Frozen", "Golden",
   "Hidden", "Iron", "Jade", "Mystic", "Noble", "Omega", "Prime", "Quantum",
   "Royal", "Solar", "Titan", "Ultra", "Void", "Wild", "Xeno", "Zenith"],
  ["Lion", "Dragon", "Eagle", "Phoenix", "Tiger", "Wolf", "Hawk",
   "Falcon", "Raven", "Owl", "Shark", "Bear", "Fox", "Panther", "Griffin",
   "Basilisk", "Chimera", "Hydra", "Kraken", "Manticore", "Pegasus", "Unicorn"],
  ["Stone", "Fire", "Storm", "Blade", "Shield", "Star", "Moon",
   "Sun", "Wave", "Flame", "Ice", "Light", "Shadow", "Metal", "Crystal",
   "Earth", "Air", "Water", "Energy", "Plasma", "Vortex", "Nova"],
  ["Bolt", "X", "Mark", "Core", "Edge", "Shift", "Pulse", "Spark",
   "Surge", "Flux", "Beam", "Ray", "Field", "Ring", "Disk",
   "Node", "Gate", "Key", "Lock", "Chain", "Grid", "Web"],
  ["Alpha", "Beta", "Gamma", "Delta", "Epsilon", "Zeta", "Eta", "Theta",
   "Iota", "Kappa", "Lambda", "Mu", "Nu", "Xi", "Omicron",
   "Pi", "Rho", "Sigma", "Tau", "Upsilon", "Phi", "Chi", "Psi", "Omega"]]

/-- 32-bit left rotation (for values below `2^32`). -/
def rotl32 (x n : Nat) : Nat := ((x <<< n) ||| (x >>> (32 - n))) &&& 0xFFFFFFFF

/-- Per-round shift amounts of MD5 (RFC 1321). -/
def md5_s : List Nat :=
  [7, 12, 17, 22, 7, 12, 17, 22, 7, 12, 17, 22, 7, 12, 17, 22,
   5, 9, 14, 20, 5, 9, 14, 20, 5, 9, 14, 20, 5, 9, 14, 20,
   4, 11, 16, 23, 4, 11, 16, 23, 4, 11, 16, 23, 4, 11, 16, 23,
   6, 10, 15, 21, 6, 10, 15, 21, 6, 10, 15, 21, 6, 10, 15, 21]

/-- Per-round additive constants of MD5 (RFC 1321). -/
def md5_K : List Nat :=
  [0xd76aa478, 0xe8c7b756, 0x242070db, 0xc1bdceee,
   0xf57c0faf, 0x4787c62a, 0xa8304613, 0xfd469501,
   0x698098d8, 0x8b44f7af, 0xffff5bb1, 0x895cd7be,
   0x6b901122, 0xfd987193, 0xa679438e, 0x49b40821,
   0xf61e2562, 0xc040b340, 0x265e5a51, 0xe9b6c7aa,
   0xd62f105d, 0x02441453, 0xd8a1e681, 0xe7d3fbc8,
   0x21e1cde6, 0xc33707d6, 0xf4d50d87, 0x455a14ed,
   0xa9e3e905, 0xfcefa3f8, 0x676f02d9, 0x8d2a4c8a,
   0xfffa3942, 0x8771f681, 0x6d9d6122, 0xfde5380c,
   0xa4beea44, 0x4bdecfa9, 0xf6bb4b60, 0xbebfbc70,
   0x289b7ec6, 0xeaa127fa, 0xd4ef3085, 0x04881d05,
   0xd9d4d039, 0xe6db99e5, 0x1fa27cf8, 0xc4ac5665,
   0xf4292244, 0x432aff97, 0xab9423a7, 0xfc93a039,
   0x655b59c3, 0x8f0ccc92, 0xffeff47d, 0x85845dd1,
   0x6fa87e4f, 0xfe2ce6e0, 0xa3014314, 0x4e0811a1,
   0xf7537e82, 0xbd3af235, 0x2ad7d2bb, 0xeb86d391]

/-- Little-endian byte decomposition: `w` bytes of `x`. -/
def le_bytes (w x : Nat) : List Nat :=
  (List.range w).map fun i => (x >>> (8 * i)) &&& 0xFF

/-- MD5 padding: append `0x80`, zero bytes up to 56 mod 64, then the
64-bit little-endian bit length. -/
def md5_pad (msg : List Nat) : List Nat :=
  msg ++ [0x80] ++ List.replicate ((120 - (msg.length + 1) % 64) % 64) 0
      ++ le_bytes 8 ((msg.length * 8) % 2 ^ 64)

/-- Little-endian 32-bit word `g` of a 64-byte chunk. -/
def le_word (chunk : List Nat) (g : Nat) : Nat :=
  chunk.getD (4 * g) 0 + (chunk.getD (4 * g + 1) 0) <<< 8 +
    (chunk.getD (4 * g + 2) 0) <<< 16 + (chunk.getD (4 * g + 3) 0) <<< 24

/-- One of the 64 MD5 rounds, acting on state `(a, b, c, d)`. -/
def md5_round (chunk : List Nat) (st : Nat × Nat × Nat × Nat) (i : Nat) :
    Nat × Nat × Nat × Nat :=
  let (a, b, c, d) := st
  let fg : Nat × Nat :=
    if i < 16 then ((b &&& c) ||| ((0xFFFFFFFF ^^^ b) &&& d), i)
    else if i < 32 then ((d &&& b) ||| ((0xFFFFFFFF ^^^ d) &&& c), (5 * i + 1) % 16)
    else if i < 48 then (b ^^^ c ^^^ d, (3 * i + 5) % 16)
    else (c ^^^ (b ||| (0xFFFFFFFF ^^^ d)), (7 * i) % 16)
  let f := (fg.1 + a + md5_K.getD i 0 + le_word chunk fg.2) &&& 0xFFFFFFFF
  (d, (b + rotl32 f (md5_s.getD i 0)) &&& 0xFFFFFFFF, b, c)

/-- Process one 64-byte chunk of the padded message. -/
def md5_chunk (st : Nat × Nat × Nat × Nat) (chunk : List Nat) :
    Nat × Nat × Nat × Nat :=
  let r := (List.range 64).foldl (md5_round chunk) st
  ((st.1 + r.1) &&& 0xFFFFFFFF, (st.2.1 + r.2.1) &&& 0xFFFFFFFF,
   (st.2.2.1 + r.2.2.1) &&& 0xFFFFFFFF, (st.2.2.2 + r.2.2.2) &&& 0xFFFFFFFF)

/-- Split a byte list into 64-byte chunks (fuel-based structural recursion
so that the kernel can evaluate it). -/
def chunks64 : Nat → List Nat → List (List Nat)
  | 0, _ => []
  | _ + 1, [] => []
  | fuel + 1, l => l.take 64 :: chunks64 fuel (l.drop 64)

/-- MD5 digest of a byte list, as the list of its 16 bytes (models
`hashlib.md5(seed).digest()`). -/
def md5 (msg : List Nat) : List Nat :=
  let padded := md5_pad msg
  let r := (chunks64 padded.length padded).foldl md5_chunk
    (0x67452301, 0xefcdab89, 0x98badcfe, 0x10325476)
  le_bytes 4 r.1 ++ le_bytes 4 r.2.1 ++ le_bytes 4 r.2.2.1 ++ le_bytes 4 r.2.2.2

/-- Byte encoding of the per-position seed string `"position_{pos}_seed"`. -/
def seed_bytes (pos : Nat) : List Nat :=
  ("position_" ++ toString pos ++ "_seed").data.map Char.toNat

/-- Simultaneous swap of positions `i` and `j`, as in the Python statement
`perm[i], perm[j] = perm[j], perm[i]`. -/
def listSwap (xs : List Nat) (i j : Nat) : List Nat :=
  (xs.set i (xs.getD j 0)).set j (xs.getD i 0)

/-- One step of the deterministic shuffle loop body of
`create_permuted_mapping`: swap `perm[i]` with `perm[j]` where
`j = hash_val[i mod 16] mod (i+1)`. -/
def shuffle_step (hash_val perm : List Nat) (i : Nat) : List Nat :=
  let byte_idx := i % hash_val.length
  let j := hash_val.getD byte_idx 0 % (i + 1)
  listSwap perm i j

/-- The shuffle loop `for i in range(n-1, 0, -1)` applied to the identity
permutation `[0, ..., n-1]`. -/
def build_perm (n : Nat) (hash_val : List Nat) : List Nat :=
  (List.range (n - 1)).foldl (fun perm k => shuffle_step hash_val perm (n - 1 - k))
    (List.range n)

/-- `create_permuted_mapping` of the source: for each position the
deterministically shuffled permutation of its bank indices, seeded by the
MD5 digest of `"position_{pos}_seed"`. -/
def create_permuted_mapping : List (List Nat) :=
  (List.range 5).map fun pos =>
    build_perm (word_banks.getD pos []).length (md5 (seed_bytes pos))

/-- The module-level `permuted_mapping`, computed once. -/
def permuted_mapping : List (List Nat) := create_permuted_mapping

/-- The per-position scrambling of the minute index (the `if/elif` chain of
`minute_to_scrambled_word`). -/
def scramble_val (minute pos : Nat) : Nat :=
  if pos = 0 then (minute * 0x6D2B79F5) &&& 0xFFFFFFFF
  else if pos = 1 then ((minute <<< 13) ||| (minute >>> 19)) &&& 0xFFFFFFFF
  else if pos = 2 then minute ^^^ 0xDEADBEEF
  else if pos = 3 then (minute * 0x19660D + 0x3C6EF35F) &&& 0xFFFFFFFF
  else ((minute &&& 0x55555555) <<< 1) ||| ((minute &&& 0xAAAAAAAA) >>> 1)

/-- One loop iteration of `minute_to_scrambled_word`: select the word for
position `pos` through the given permutation table. -/
def scramble_word (mapping : List (List Nat)) (minute pos : Nat) : String :=
  let word_list := word_banks.getD pos []
  let perm := mapping.getD pos []
  let idx := scramble_val minute pos % word_list.length
  word_list.getD (perm.getD idx 0) ""

/-- The label for one minute, parameterised by the permutation table (the
body of `minute_to_scrambled_word`: five selected words joined by
`"<br>"`). -/
def label_with (mapping : List (List Nat)) (minute : Nat) : String :=
  String.intercalate "<br>" ((List.range 5).map (scramble_word mapping minute))

/-- `minute_to_scrambled_word` of the source, reading the module-level
`permuted_mapping`. -/
def minute_to_scrambled_word (minute : Nat) : String :=
  label_with permuted_mapping minute

/-- The module-level table `all_words`: the label of every minute in
`[0, 1439]`, in ascending order. -/
def all_words : List String := (List.range 1440).map minute_to_scrambled_word

/-- Python list indexing `xs[i]` for a possibly negative integer index:
negative indices count from the end; out-of-range indexing raises
`IndexError`, modelled as `none`. -/
def py_index (xs : List String) (i : Int) : Option String :=
  if 0 ≤ i then xs[i.toNat]?
  else if 0 ≤ i + xs.length then xs[(i + xs.length).toNat]?
  else none

/-- `get_word` of the source: `all_words[hour * 60 + minute]` under Python
indexing semantics. -/
def get_word (hour minute : Int) : Option String :=
  py_index all_words (hour * 60 + minute)

/-! Spec-side definitions, written from the specification text, to be
compared with the definitions translated from the source. -/

/-- The specification's per-position transform table (section 4.2): all
arithmetic unsigned 32-bit, wrapping via `% 2^32`; position 1 is a 32-bit
left rotation by 13. -/
def spec_val (minute p : Nat) : Nat :=
  if p = 0 then minute * 0x6D2B79F5 % 2 ^ 32
  else if p = 1 then rotl32 minute 13
  else if p = 2 then (minute ^^^ 0xDEADBEEF) % 2 ^ 32
  else if p = 3 then (minute * 0x19660D + 0x3C6EF35F) % 2 ^ 32
  else (((minute &&& 0x55555555) <<< 1) ||| ((minute &&& 0xAAAAAAAA) >>> 1)) % 2 ^ 32

/-- The specification's word selection (section 4.3):
`idx = val(minute,p) mod len(bank[p])`, `word = bank[p][perm[p][idx]]`. -/
def spec_word (minute p : Nat) : String :=
  let bank := word_banks.getD p []
  let idx := spec_val minute p % bank.length
  bank.getD ((permuted_mapping.getD p []).getD idx 0) ""

/-- The specification's label (section 4.3): the five selected words joined
in position order with the fixed separator. -/
def spec_label (minute : Nat) : String :=
  String.intercalate "<br>" ((List.range 5).map (spec_word minute))

/-- The specification's Fisher-Yates-style shuffle (section 4.1, step 3):
for `i` from `n-1` down to `1`, swap `perm[i]` and `perm[j]` with
`j = H[i mod len(H)] mod (i+1)`, reading the digest cyclically. -/
def fisher_yates_from (H : List Nat) : Nat → List Nat → List Nat
  | 0, perm => perm
  | i + 1, perm =>
      fisher_yates_from H i
        (listSwap perm (i + 1) (H.getD ((i + 1) % H.length) 0 % (i + 2)))

/-- The permutation for position `p` as specified in section 4.1: hash the
seed string, then shuffle the identity permutation. -/
def spec_perm (p : Nat) : List Nat :=
  let n := (word_banks.getD p []).length
  fisher_yates_from (md5 (seed_bytes p)) (n - 1) (List.range n)

/-- Two independent runs of the full table construction (fresh permutation
build from the seeds, then the assembler on every minute in ascending
order). -/
def table_run1 : List String :=
  (List.range 1440).map (label_with create_permuted_mapping)

/-- A second, separate run of the same construction. -/
def table_run2 : List String :=
  (List.range 1440).map (label_with create_permuted_mapping)

/-! Character-level splitting and joining, for the label-format claim. -/

/-- If `sep` is a prefix of `l`, return the remainder of `l`, else `none`
(one match attempt of the splitter). -/
def dropSep? : List Char → List Char → Option (List Char)
  | [], l => some l
  | _ :: _, [] => none
  | c :: cs, d :: ds => if c = d then dropSep? cs ds else none

/-- Left-to-right splitting of a character list on the separator `sep`: at
each position, if `sep` matches, close the current (reversed) part and
continue after the match, else move one character into the accumulator.
`fuel` bounds the recursion; it is always invoked with at least the length
of the list. -/
def chSplitGo (sep : List Char) : Nat → List Char → List Char → List (List Char)
  | _, cur, [] => [cur.reverse]
  | 0, cur, _ :: _ => [cur.reverse]
  | fuel + 1, cur, c :: cs =>
      match dropSep? sep (c :: cs) with
      | some rest => cur.reverse :: chSplitGo sep fuel [] rest
      | none => chSplitGo sep fuel (c :: cur) cs

/-- Split a character list on each leftmost occurrence of a separator. -/
def chSplit (sep l : List Char) : List (List Char) :=
  chSplitGo sep l.length [] l

/-- Join character lists, with the separator between consecutive parts. -/
def joinSep (sep : List Char) : List (List Char) → List Char
  | [] => []
  | w :: ws => w ++ (ws.map (fun x => sep ++ x)).flatten

/-- The character sequence of the label separator. -/
def brChars : List Char := "<br>".data

/-! Reference-value checks of the embedded construction. -/

/-- The MD5 model reproduces the reference digest of the position-0 seed. -/
theorem md5_seed0_digest :
    md5 (seed_bytes 0) =
      [180, 250, 242, 92, 234, 84, 193, 254, 159, 224, 239, 59, 245, 121, 19, 106] := by
  decide

/-- The MD5 model reproduces the reference digests of the remaining seeds. -/
theorem md5_seed_digests :
    md5 (seed_bytes 1) =
      [127, 110, 148, 18, 250, 193, 46, 39, 94, 145, 61, 224, 106, 170, 246, 22] ∧
    md5 (seed_bytes 2) =
      [91, 36, 193, 145, 236, 155, 189, 177, 129, 99, 85, 102, 93, 12, 9, 165] ∧
    md5 (seed_bytes 3) =
      [96, 43, 2, 72, 249, 181, 197, 214, 180, 239, 48, 104, 166, 196, 237, 159] ∧
    md5 (seed_bytes 4) =
      [146, 110, 218, 129, 234, 206, 169, 31, 35, 51, 38, 154, 57, 5, 58, 110] := by
  refine ⟨by decide, by decide, by decide, by decide⟩

/-- The computed permutation table matches the reference values. -/
theorem permuted_mapping_values :
    permuted_mapping =
      [[1, 20, 2, 5, 7, 0, 13, 15, 6, 21, 8, 19, 11, 22, 4, 17, 10, 16, 14, 12, 3, 18, 9],
       [3, 10, 9, 12, 0, 1, 11, 7, 4, 5, 14, 16, 13, 21, 20, 6, 8, 2, 15, 18, 19, 17],
       [13, 11, 10, 4, 7, 15, 17, 21, 18, 14, 8, 16, 2, 12, 9, 19, 6, 0, 3, 20, 5, 1],
       [3, 21, 20, 16, 14, 17, 1, 6, 13, 9, 4, 8, 10, 0, 19, 15, 11, 7, 2, 12, 18, 5],
       [20, 0, 11, 6, 4, 17, 18, 23, 21, 1, 12, 16, 15, 5, 13, 14, 10, 2, 19, 9, 3, 22, 8, 7]] := by
  decide

/-! Helper lemmas about the label table and `get_word`. -/

theorem all_words_length : all_words.length = 1440 := by
  simp [all_words]

theorem all_words_getElem? (k : Nat) (hk : k < 1440) :
    all_words[k]? = some (minute_to_scrambled_word k) := by
  simp [all_words, List.getElem?_range hk]

theorem all_words_getElem?_none (k : Nat) (hk : 1440 ≤ k) :
    all_words[k]? = none := by
  refine List.getElem?_eq_none ?_
  rw [all_words_length]; exact hk

theorem get_word_nonneg (h m : Int) (h0 : 0 ≤ h * 60 + m) (h1 : h * 60 + m ≤ 1439) :
    get_word h m = some (minute_to_scrambled_word (h * 60 + m).toNat) := by
  unfold get_word py_index
  rw [if_pos h0]
  exact all_words_getElem? _ (by omega)

theorem get_word_neg (h m : Int) (h0 : -1440 ≤ h * 60 + m) (h1 : h * 60 + m < 0) :
    get_word h m = some (minute_to_scrambled_word (1440 + (h * 60 + m)).toNat) := by
  unfold get_word py_index
  rw [if_neg (by omega), if_pos (by rw [all_words_length]; omega)]
  rw [all_words_length]
  have hab : (h * 60 + m + (1440 : Nat)).toNat = (1440 + (h * 60 + m)).toNat := by
    omega
  rw [hab]
  exact all_words_getElem? _ (by omega)

theorem get_word_none_iff (h m : Int) :
    get_word h m = none ↔ h * 60 + m < -1440 ∨ 1439 < h * 60 + m := by
  unfold get_word py_index
  rw [all_words_length]
  split_ifs with hpos hneg
  · rcases Nat.lt_or_ge (h * 60 + m).toNat 1440 with hk | hk
    · rw [all_words_getElem? _ hk]
      simp only [Option.some_ne_none, false_iff]
      omega
    · rw [all_words_getElem?_none _ hk]
      simp only [true_iff]
      omega
  · rw [all_words_getElem? _ (by omega)]
    simp only [Option.some_ne_none, false_iff]
    omega
  · simp only [true_iff]
    omega

theorem and_mask32 (x : Nat) : x &&& 0xFFFFFFFF = x % 2 ^ 32 := by
  have h := Nat.and_pow_two_sub_one_eq_mod x 32
  norm_num at h
  norm_num
  exact h

theorem scramble_val_eq0 (m : Nat) : scramble_val m 0 = m * 0x6D2B79F5 &&& 0xFFFFFFFF := by
  simp only [scramble_val]
  norm_num

theorem scramble_val_eq1 (m : Nat) :
    scramble_val m 1 = (m <<< 13 ||| m >>> 19) &&& 0xFFFFFFFF := by
  simp only [scramble_val]
  norm_num

theorem scramble_val_eq2 (m : Nat) : scramble_val m 2 = m ^^^ 0xDEADBEEF := by
  simp only [scramble_val]
  norm_num

theorem scramble_val_eq3 (m : Nat) :
    scramble_val m 3 = (m * 0x19660D + 0x3C6EF35F) &&& 0xFFFFFFFF := by
  simp only [scramble_val]
  norm_num

theorem scramble_val_eq4 (m : Nat) :
    scramble_val m 4 = (m &&& 0x55555555) <<< 1 ||| (m &&& 0xAAAAAAAA) >>> 1 := by
  simp only [scramble_val]
  norm_num

theorem spec_val_eq0 (m : Nat) : spec_val m 0 = m * 0x6D2B79F5 % 2 ^ 32 := by
  simp only [spec_val]
  norm_num

theorem spec_val_eq1 (m : Nat) : spec_val m 1 = rotl32 m 13 := by
  simp only [spec_val]
  norm_num

theorem spec_val_eq2 (m : Nat) : spec_val m 2 = (m ^^^ 0xDEADBEEF) % 2 ^ 32 := by
  simp only [spec_val]
  norm_num

theorem spec_val_eq3 (m : Nat) :
    spec_val m 3 = (m * 0x19660D + 0x3C6EF35F) % 2 ^ 32 := by
  simp only [spec_val, if_neg (show ¬(3 : Nat) = 0 by decide),
    if_neg (show ¬(3 : Nat) = 1 by decide), if_neg (show ¬(3 : Nat) = 2 by decide),
    if_pos (show (3 : Nat) = 3 from rfl), if_true]

theorem spec_val_eq4 (m : Nat) :
    spec_val m 4 =
      (((m &&& 0x55555555) <<< 1) ||| ((m &&& 0xAAAAAAAA) >>> 1)) % 2 ^ 32 := by
  simp only [spec_val]
  norm_num

theorem scramble_val_eq_spec_val (m : Nat) (hm : m < 1440) :
    ∀ p < 5, scramble_val m p = spec_val m p := by
  have hm32 : m < 2 ^ 32 := lt_trans hm (by norm_num)
  have hx2 : m ^^^ 0xDEADBEEF < 2 ^ 32 := Nat.xor_lt_two_pow hm32 (by norm_num)
  have hl : (m &&& 0x55555555) <<< 1 < 2 ^ 32 := by
    rw [Nat.shiftLeft_eq]
    calc (m &&& 0x55555555) * 2 ^ 1 ≤ 0x55555555 * 2 ^ 1 :=
          Nat.mul_le_mul_right _ Nat.and_le_right
      _ < 2 ^ 32 := by norm_num
  have hr : (m &&& 0xAAAAAAAA) >>> 1 < 2 ^ 32 := by
    rw [Nat.shiftRight_eq_div_pow]
    exact lt_of_le_of_lt (le_trans (Nat.div_le_self _ _) Nat.and_le_right) (by norm_num)
  have hx4 : ((m &&& 0x55555555) <<< 1) ||| ((m &&& 0xAAAAAAAA) >>> 1) < 2 ^ 32 :=
    Nat.or_lt_two_pow hl hr
  intro p hp
  interval_cases p
  · rw [scramble_val_eq0, spec_val_eq0, and_mask32]
  · rw [scramble_val_eq1, spec_val_eq1]
    simp only [rotl32]
  · rw [scramble_val_eq2, spec_val_eq2, Nat.mod_eq_of_lt hx2]
  · rw [scramble_val_eq3, spec_val_eq3, and_mask32]
  · rw [scramble_val_eq4, spec_val_eq4, Nat.mod_eq_of_lt hx4]

theorem label_eq_spec (m : Nat) (hm : m < 1440) :
    minute_to_scrambled_word m = spec_label m := by
  unfold minute_to_scrambled_word label_with spec_label
  refine congrArg _ (List.map_congr_left ?_)
  intro p hp
  rw [List.mem_range] at hp
  simp only [scramble_word, spec_word, scramble_val_eq_spec_val m hm p hp]

theorem bank_length_pos : ∀ p < 5, 0 < (word_banks.getD p []).length := by
  decide

theorem perm_length_eq :
    ∀ p < 5, (permuted_mapping.getD p []).length = (word_banks.getD p []).length := by
  decide

theorem perm_entry_lt :
    ∀ p < 5, ∀ i < (word_banks.getD p []).length,
      (permuted_mapping.getD p []).getD i 0 < (word_banks.getD p []).length := by
  decide

/-! The claims. -/

/-- Claim C1: for every hour in `[0,23]` and minute in `[0,59]`,
`get_word hour minute` returns entry `hour*60+minute` of the table built
by the assembler over all minutes in ascending order, and that entry is
the five bank words selected by `idx = val(m,p) mod len(bank[p])`,
`word = bank[p][perm[p][idx]]`, joined in position order with the fixed
separator. -/
theorem claim_C1 (h m : Nat) (hh : h ≤ 23) (hm : m ≤ 59) :
    get_word h m = all_words[h * 60 + m]? ∧
    get_word h m = some (spec_label (h * 60 + m)) := by
  have hlt : h * 60 + m < 1440 := by omega
  have ht : ((h : Int) * 60 + (m : Int)).toNat = h * 60 + m := by omega
  have hg : get_word h m = some (minute_to_scrambled_word (h * 60 + m)) := by
    rw [get_word_nonneg (h : Int) (m : Int) (by omega) (by omega), ht]
  constructor
  · rw [hg, all_words_getElem? _ hlt]
  · rw [hg, label_eq_spec _ hlt]

/-- Claim C1 witness: the theorem applied at hour 23, minute 59. -/
theorem claim_C1_witness :
    get_word 23 59 = all_words[23 * 60 + 59]? ∧
    get_word 23 59 = some (spec_label (23 * 60 + 59)) :=
  claim_C1 23 59 (by decide) (by decide)

/-- Claim C2 counterexample: `get_word 0 75` has minute `75` outside
`[0,59]`, yet it does not fail: it silently returns the in-range label of
combined index 75, the same value as `get_word 1 15`. -/
theorem claim_C2_counterexample :
    get_word 0 75 ≠ none ∧ get_word 0 75 = get_word 1 15 := by
  have e1 : get_word 0 75 = some (minute_to_scrambled_word ((0 : Int) * 60 + 75).toNat) :=
    get_word_nonneg 0 75 (by decide) (by decide)
  have e2 : get_word 1 15 = some (minute_to_scrambled_word ((1 : Int) * 60 + 15).toNat) :=
    get_word_nonneg 1 15 (by decide) (by decide)
  refine ⟨by rw [e1]; simp, ?_⟩
  rw [e1, e2]
  have ht : ((0 : Int) * 60 + 75).toNat = ((1 : Int) * 60 + 15).toNat := by decide
  rw [ht]

/-- Claim C2, amended: `get_word` performs no validation of `hour` or
`minute`; it fails (returns no label) exactly when the combined index
`hour*60+minute` lies outside `[-1440, 1439]`, and for negative combined
indices in range it silently wraps, returning the label of
`1440 + hour*60 + minute`. -/
theorem claim_C2_amended (h m : Int) :
    (get_word h m = none ↔ h * 60 + m < -1440 ∨ 1439 < h * 60 + m) ∧
    (-1440 ≤ h * 60 + m → h * 60 + m < 0 →
      get_word h m = some (minute_to_scrambled_word (1440 + (h * 60 + m)).toNat)) :=
  ⟨get_word_none_iff h m, fun h0 h1 => get_word_neg h m h0 h1⟩

/-- Claim C2 witness: the amended theorem applied at hour 0, minute -1,
which silently wraps to the label of minute 1439. -/
theorem claim_C2_witness :
    get_word 0 (-1) = some (minute_to_scrambled_word (1440 + ((0 : Int) * 60 + -1)).toNat) :=
  (claim_C2_amended 0 (-1)).2 (by decide) (by decide)

/-- Claim C3: two independent runs of the full construction (fresh
permutation build from the fixed seeds, then the assembler over every
minute) produce identical table entries, and each entry is the value of a
pure function of the minute index, the seeds and the word banks. -/
theorem claim_C3 (m : Nat) (hm : m < 1440) :
    table_run1[m]? = table_run2[m]? ∧
    table_run1[m]? = some (label_with create_permuted_mapping m) := by
  refine ⟨rfl, ?_⟩
  simp [table_run1, List.getElem?_range hm]

/-- Claim C3 witness: the theorem applied at minute 0. -/
theorem claim_C3_witness :
    table_run1[0]? = table_run2[0]? ∧
    table_run1[0]? = some (label_with create_permuted_mapping 0) :=
  claim_C3 0 (by decide)

/-- Claim C4: for each position, the permutation table entry is a
bijection on the bank's index range: it has the bank's length and every
index below that length occurs in it exactly once. -/
theorem claim_C4 : ∀ p < 5,
    (permuted_mapping.getD p []).length = (word_banks.getD p []).length ∧
    ∀ k < (word_banks.getD p []).length, (permuted_mapping.getD p []).count k = 1 := by
  decide

/-- Claim C4 witness: the theorem applied at position 4 (bank size 24). -/
theorem claim_C4_witness :
    (permuted_mapping.getD 4 []).length = (word_banks.getD 4 []).length ∧
    ∀ k < (word_banks.getD 4 []).length, (permuted_mapping.getD 4 []).count k = 1 :=
  claim_C4 4 (by decide)

/-- Claim C5: for every minute in `[0,1439]` the per-position transform
equals the specification's fixed table under unsigned 32-bit wrapping
arithmetic: multiply by `0x6D2B79F5`; 32-bit left-rotate by 13; XOR with
`0xDEADBEEF`; the LCG step; and the odd/even bit-lane swap. -/
theorem claim_C5 (m : Nat) (hm : m < 1440) :
    scramble_val m 0 = m * 0x6D2B79F5 % 2 ^ 32 ∧
    scramble_val m 1 = rotl32 m 13 ∧
    scramble_val m 2 = (m ^^^ 0xDEADBEEF) % 2 ^ 32 ∧
    scramble_val m 3 = (m * 0x19660D + 0x3C6EF35F) % 2 ^ 32 ∧
    scramble_val m 4 = (((m &&& 0x55555555) <<< 1) ||| ((m &&& 0xAAAAAAAA) >>> 1)) % 2 ^ 32 := by
  have h := scramble_val_eq_spec_val m hm
  exact ⟨(h 0 (by norm_num)).trans (spec_val_eq0 m), (h 1 (by norm_num)).trans (spec_val_eq1 m),
    (h 2 (by norm_num)).trans (spec_val_eq2 m), (h 3 (by norm_num)).trans (spec_val_eq3 m),
    (h 4 (by norm_num)).trans (spec_val_eq4 m)⟩

/-- Claim C5 witness: the theorem applied at minute 1234. -/
theorem claim_C5_witness :
    scramble_val 1234 0 = 1234 * 0x6D2B79F5 % 2 ^ 32 ∧
    scramble_val 1234 1 = rotl32 1234 13 ∧
    scramble_val 1234 2 = (1234 ^^^ 0xDEADBEEF) % 2 ^ 32 ∧
    scramble_val 1234 3 = (1234 * 0x19660D + 0x3C6EF35F) % 2 ^ 32 ∧
    scramble_val 1234 4 =
      (((1234 &&& 0x55555555) <<< 1) ||| ((1234 &&& 0xAAAAAAAA) >>> 1)) % 2 ^ 32 :=
  claim_C5 1234 (by decide)

/-- Claim C6: for every minute and position, the selection index
`idx = val(minute,p) mod len(bank[p])` is below the bank length, below the
permutation length, and the permutation value at `idx` is again below the
bank length, so both list accesses of the assembler are in range. -/
theorem claim_C6 (m p : Nat) (hp : p < 5) :
    scramble_val m p % (word_banks.getD p []).length < (word_banks.getD p []).length ∧
    scramble_val m p % (word_banks.getD p []).length < (permuted_mapping.getD p []).length ∧
    (permuted_mapping.getD p []).getD (scramble_val m p % (word_banks.getD p []).length) 0
      < (word_banks.getD p []).length := by
  have hidx : scramble_val m p % (word_banks.getD p []).length <
      (word_banks.getD p []).length :=
    Nat.mod_lt _ (bank_length_pos p hp)
  exact ⟨hidx, by rw [perm_length_eq p hp]; exact hidx, perm_entry_lt p hp _ hidx⟩

/-- Claim C6 witness: the theorem applied at minute 987654321 and
position 3 (the bound holds for arbitrary minutes). -/
theorem claim_C6_witness :
    scramble_val 987654321 3 % (word_banks.getD 3 []).length <
      (word_banks.getD 3 []).length ∧
    scramble_val 987654321 3 % (word_banks.getD 3 []).length <
      (permuted_mapping.getD 3 []).length ∧
    (permuted_mapping.getD 3 []).getD
        (scramble_val 987654321 3 % (word_banks.getD 3 []).length) 0
      < (word_banks.getD 3 []).length :=
  claim_C6 987654321 3 (by decide)

/-- Claim C7: each position's permutation is exactly the specification's
algorithm: MD5 of the seed string `"position_{p}_seed"`, the identity
permutation, then the downward swap loop with
`j = H[i mod len(H)] mod (i+1)` reading the digest cyclically. -/
theorem claim_C7 : ∀ p < 5, permuted_mapping.getD p [] = spec_perm p := by
  decide

/-- Claim C7 witness: the theorem applied at position 0. -/
theorem claim_C7_witness : permuted_mapping.getD 0 [] = spec_perm 0 :=
  claim_C7 0 (by decide)

/-- Claim C8: the word bank is a sequence of exactly 5 sequences of
strings of sizes 23, 22, 22, 22, 24 in position order. -/
theorem claim_C8 :
    word_banks.length = 5 ∧ word_banks.map List.length = [23, 22, 22, 22, 24] := by
  decide

/-- Claim C9: `get_word` performs no validation: any combined index
`hour*60+minute` in `[0,1439]` returns that minute's label (even when
`minute > 59`), any combined index in `[-1440,-1]` wraps to the label of
`1440 + hour*60 + minute`, and an index error occurs exactly when the
combined index lies outside `[-1440, 1439]`. -/
theorem claim_C9 (h m : Int) :
    (0 ≤ h * 60 + m → h * 60 + m ≤ 1439 →
      get_word h m = some (minute_to_scrambled_word (h * 60 + m).toNat)) ∧
    (-1440 ≤ h * 60 + m → h * 60 + m < 0 →
      get_word h m = some (minute_to_scrambled_word (1440 + (h * 60 + m)).toNat)) ∧
    (get_word h m = none ↔ h * 60 + m < -1440 ∨ 1439 < h * 60 + m) :=
  ⟨fun h0 h1 => get_word_nonneg h m h0 h1,
   fun h0 h1 => get_word_neg h m h0 h1,
   get_word_none_iff h m⟩

/-- Claim C9 witness: the theorem applied at `(0, 75)`, which returns the
label of minute 75 although 75 is not a valid minute argument. -/
theorem claim_C9_witness :
    get_word 0 75 = some (minute_to_scrambled_word (((0 : Int) * 60 + 75)).toNat) :=
  (claim_C9 0 75).1 (by decide) (by decide)

/-! Correctness of the character-level splitter on separator-joined parts. -/

theorem dropSep?_self (sep rest : List Char) : dropSep? sep (sep ++ rest) = some rest := by
  induction sep with
  | nil => rfl
  | cons c cs ih => simp [dropSep?, ih]

theorem dropSep?_head_ne (c₀ : Char) (sep' : List Char) (c : Char) (l : List Char)
    (h : c ≠ c₀) : dropSep? (c₀ :: sep') (c :: l) = none := by
  simp only [dropSep?]
  rw [if_neg (fun he => h he.symm)]

theorem chSplitGo_nil (sep : List Char) (fuel : Nat) (cur : List Char) :
    chSplitGo sep fuel cur [] = [cur.reverse] := by
  cases fuel <;> rfl

theorem chSplitGo_cons_none (sep : List Char) (fuel : Nat) (cur : List Char) (c : Char)
    (cs : List Char) (h : dropSep? sep (c :: cs) = none) :
    chSplitGo sep (fuel + 1) cur (c :: cs) = chSplitGo sep fuel (c :: cur) cs := by
  simp [chSplitGo, h]

theorem chSplitGo_cons_some (sep : List Char) (fuel : Nat) (cur : List Char) (c : Char)
    (cs rest : List Char) (h : dropSep? sep (c :: cs) = some rest) :
    chSplitGo sep (fuel + 1) cur (c :: cs) = cur.reverse :: chSplitGo sep fuel [] rest := by
  simp [chSplitGo, h]

theorem chSplitGo_scan (c₀ : Char) (sep' : List Char) :
    ∀ (w cur l : List Char) (fuel : Nat), c₀ ∉ w → w.length + l.length ≤ fuel →
      chSplitGo (c₀ :: sep') fuel cur (w ++ l) =
        chSplitGo (c₀ :: sep') (fuel - w.length) (w.reverse ++ cur) l := by
  intro w
  induction w with
  | nil => intro cur l fuel _ _; simp
  | cons c w' ih =>
      intro cur l fuel hw hfuel
      have hc : c ≠ c₀ := fun he => hw (List.mem_cons.mpr (Or.inl he.symm))
      have hw' : c₀ ∉ w' := fun hmem => hw (List.mem_cons.mpr (Or.inr hmem))
      obtain ⟨fuel', rfl⟩ : ∃ f, fuel = f + 1 :=
        ⟨fuel - 1, by simp only [List.length_cons] at hfuel; omega⟩
      rw [List.cons_append, chSplitGo_cons_none _ _ _ _ _ (dropSep?_head_ne c₀ sep' c _ hc)]
      rw [ih (c :: cur) l fuel' hw'
        (by simp only [List.length_cons] at hfuel; omega)]
      simp [List.length_cons, Nat.add_sub_add_right, List.reverse_cons, List.append_assoc]

theorem chSplitGo_joinSep (c₀ : Char) (sep' : List Char) :
    ∀ (parts : List (List Char)) (w : List Char) (fuel : Nat),
      c₀ ∉ w → (∀ part ∈ parts, c₀ ∉ part) →
      (w ++ (parts.map (fun x => (c₀ :: sep') ++ x)).flatten).length ≤ fuel →
      chSplitGo (c₀ :: sep') fuel [] (w ++ (parts.map (fun x => (c₀ :: sep') ++ x)).flatten) =
        w :: parts := by
  intro parts
  induction parts with
  | nil =>
      intro w fuel hw _ hfuel
      rw [chSplitGo_scan c₀ sep' w [] (List.map _ []).flatten fuel hw
        (by simpa using hfuel)]
      simp [chSplitGo_nil]
  | cons q parts' ih =>
      intro w fuel hw hparts hfuel
      have hassoc : (((q :: parts').map (fun x => (c₀ :: sep') ++ x)).flatten)
          = (c₀ :: sep') ++ (q ++ ((parts'.map (fun x => (c₀ :: sep') ++ x)).flatten)) := by
        simp [List.append_assoc]
      rw [hassoc] at hfuel ⊢
      rw [chSplitGo_scan c₀ sep' w []
        ((c₀ :: sep') ++ (q ++ (parts'.map (fun x => (c₀ :: sep') ++ x)).flatten)) fuel hw
        (by simp only [List.length_append] at hfuel ⊢; omega)]
      obtain ⟨f, hf⟩ : ∃ f, fuel - w.length = f + 1 :=
        ⟨fuel - w.length - 1, by simp only [List.length_append, List.length_cons] at hfuel; omega⟩
      rw [hf, List.cons_append]
      rw [chSplitGo_cons_some _ _ _ _ _ _
        (by
          have hds := dropSep?_self (c₀ :: sep')
            (q ++ (parts'.map (fun x => (c₀ :: sep') ++ x)).flatten)
          rw [List.cons_append] at hds
          exact hds)]
      rw [ih q f
        (hparts q (List.mem_cons.mpr (Or.inl rfl)))
        (fun part hpart => hparts part (List.mem_cons.mpr (Or.inr hpart)))
        (by simp only [List.length_append, List.length_cons] at hfuel ⊢; omega)]
      simp

theorem chSplit_joinSep (c₀ : Char) (sep' : List Char) (w : List Char)
    (parts' : List (List Char)) (hw : c₀ ∉ w) (hparts : ∀ part ∈ parts', c₀ ∉ part) :
    chSplit (c₀ :: sep') (joinSep (c₀ :: sep') (w :: parts')) = w :: parts' := by
  unfold chSplit joinSep
  exact chSplitGo_joinSep c₀ sep' parts' w _ hw hparts (le_refl _)

/-! Bridging `String.intercalate` to the character-level join. -/

theorem intercalate_go_data (s : String) :
    ∀ (as : List String) (acc : String),
      (String.intercalate.go acc s as).data =
        acc.data ++ (as.map (fun a => s.data ++ a.data)).flatten := by
  intro as
  induction as with
  | nil => intro acc; simp [String.intercalate.go]
  | cons a as' ih =>
      intro acc
      rw [String.intercalate.go, ih]
      simp [List.append_assoc]

theorem intercalate_data (s : String) (l : List String) :
    (String.intercalate s l).data = joinSep s.data (l.map String.data) := by
  cases l with
  | nil => rfl
  | cons a as =>
      rw [String.intercalate, intercalate_go_data]
      simp only [List.map_cons, joinSep, List.map_map]
      rfl

theorem label_with_data (mapping : List (List Nat)) (m : Nat) :
    (label_with mapping m).data =
      joinSep brChars (((List.range 5).map (scramble_word mapping m)).map String.data) := by
  unfold label_with
  rw [intercalate_data]
  rfl

/-! Membership of the selected words in their banks. -/

theorem getD_mem_of_lt {l : List String} {i : Nat} (h : i < l.length) (d : String) :
    l.getD i d ∈ l := by
  rw [List.getD_eq_getElem?_getD, List.getElem?_eq_getElem h]
  exact List.getElem_mem h

theorem scramble_word_mem (m p : Nat) (hp : p < 5) :
    scramble_word permuted_mapping m p ∈ word_banks.getD p [] := by
  show (word_banks.getD p []).getD
      ((permuted_mapping.getD p []).getD
        (scramble_val m p % (word_banks.getD p []).length) 0) "" ∈ word_banks.getD p []
  exact getD_mem_of_lt (perm_entry_lt p hp _ (Nat.mod_lt _ (bank_length_pos p hp))) _

theorem bank_words_no_lt :
    ∀ p < 5, ∀ w ∈ word_banks.getD p [], (Char.ofNat 60) ∉ w.data := by
  decide

theorem label_split (m : Nat) :
    chSplit brChars (minute_to_scrambled_word m).data =
      [(scramble_word permuted_mapping m 0).data, (scramble_word permuted_mapping m 1).data,
       (scramble_word permuted_mapping m 2).data, (scramble_word permuted_mapping m 3).data,
       (scramble_word permuted_mapping m 4).data] := by
  have hclean : ∀ p, p < 5 → (Char.ofNat 60) ∉ (scramble_word permuted_mapping m p).data :=
    fun p hp => bank_words_no_lt p hp _ (scramble_word_mem m p hp)
  have hdata : (minute_to_scrambled_word m).data =
      joinSep brChars
        [(scramble_word permuted_mapping m 0).data, (scramble_word permuted_mapping m 1).data,
         (scramble_word permuted_mapping m 2).data, (scramble_word permuted_mapping m 3).data,
         (scramble_word permuted_mapping m 4).data] := by
    unfold minute_to_scrambled_word
    rw [label_with_data]
    rw [show List.range 5 = [0, 1, 2, 3, 4] from rfl]
    simp [List.map_cons]
  rw [hdata]
  rw [show brChars = (Char.ofNat 60) :: ['b', 'r', Char.ofNat 62] from rfl]
  refine chSplit_joinSep _ _ _ _ (hclean 0 (by norm_num)) ?_
  intro part hpart
  simp only [List.mem_cons, List.not_mem_nil, or_false] at hpart
  rcases hpart with rfl | rfl | rfl | rfl
  · exact hclean 1 (by norm_num)
  · exact hclean 2 (by norm_num)
  · exact hclean 3 (by norm_num)
  · exact hclean 4 (by norm_num)

/-- Claim C10: for every minute in `[0,1439]`, the table entry is exactly
five words joined by the separator: splitting its characters on `"<br>"`
yields exactly 5 parts, part `p` is an element of `word_banks[p]`, and no
bank word itself contains the separator (splitting any bank word returns
the word unchanged). -/
theorem claim_C10 (m : Nat) (hm : m < 1440) :
    all_words[m]? = some (minute_to_scrambled_word m) ∧
    (chSplit brChars (minute_to_scrambled_word m).data).length = 5 ∧
    chSplit brChars (minute_to_scrambled_word m).data =
      (List.range 5).map (fun p => (scramble_word permuted_mapping m p).data) ∧
    (∀ p < 5, scramble_word permuted_mapping m p ∈ word_banks.getD p []) ∧
    (∀ p < 5, ∀ w ∈ word_banks.getD p [], chSplit brChars w.data = [w.data]) := by
  have hsplit5 : chSplit brChars (minute_to_scrambled_word m).data =
      (List.range 5).map (fun p => (scramble_word permuted_mapping m p).data) := by
    rw [label_split]
    simp only [show List.range 5 = [0, 1, 2, 3, 4] from rfl, List.map_cons, List.map_nil]
  refine ⟨all_words_getElem? m hm, ?_, hsplit5,
    fun p hp => scramble_word_mem m p hp, by decide⟩
  rw [hsplit5]
  simp

/-- Claim C10 witness: the theorem applied at minute 0. -/
theorem claim_C10_witness :
    all_words[0]? = some (minute_to_scrambled_word 0) ∧
    (chSplit brChars (minute_to_scrambled_word 0).data).length = 5 ∧
    chSplit brChars (minute_to_scrambled_word 0).data =
      (List.range 5).map (fun p => (scramble_word permuted_mapping 0 p).data) ∧
    (∀ p < 5, scramble_word permuted_mapping 0 p ∈ word_banks.getD p []) ∧
    (∀ p < 5, ∀ w ∈ word_banks.getD p [], chSplit brChars w.data = [w.data]) :=
  claim_C10 0 (by decide)

end Collections1
